import Mathlib

/-!
Verification of the hsv-picker repository (src/contours.py, src/color_finder.py,
src/main.py) against its natural-language specification.

The pixel-processing routines are shallowly embedded: an HSV pixel is a triple
of natural numbers (hue, saturation, value); uint8 machine values always lie in
[0, 255] and OpenCV hue output of BGR-to-HSV conversion lies in [0, 179], which
appear as explicit hypotheses where they matter.  The external vision library
(cv2) is treated as a collaborator: `cv.inRange` and `cv.bitwise_or` are given
their documented pixelwise meaning, `cv.contourArea` is an abstract key
function, and `cv.drawContours` is an abstract image transformer.  Python
`assert` failures are modelled as `Except.error`; Python in-place mutation is
modelled by explicit state passing.
-/

/-- An HSV pixel: (hue, saturation, value), each a machine natural. -/
abbrev Pixel := Nat × Nat × Nat

/-- A colour triple that may hold arbitrary integers (used where the source
may be handed out-of-domain channel values, including negative ones). -/
abbrev IColor := Int × Int × Int

/-- A two-dimensional HSV image, rows of pixels, as iterated by
`ColorFinder.get_hsv_range` (`for col in self.hsv_image: for row in col`). -/
abbrev HSVImage := List (List Pixel)

/-- Pixelwise meaning of `cv.inRange`: a pixel is kept iff every channel lies
between the corresponding channels of the lower and the upper bound,
inclusive. -/
def inRangePx (lo hi : Pixel) (px : Pixel) : Bool :=
  decide (lo.1 ≤ px.1) && decide (px.1 ≤ hi.1) &&
  decide (lo.2.1 ≤ px.2.1) && decide (px.2.1 ≤ hi.2.1) &&
  decide (lo.2.2 ≤ px.2.2) && decide (px.2.2 ≤ hi.2.2)

/-- `cv.inRange` on a (flattened) image: the binary mask. -/
def cvInRange (hsv_image : List Pixel) (lo hi : Pixel) : List Bool :=
  hsv_image.map (inRangePx lo hi)

/-- Pixelwise meaning of `cv.bitwise_or` on two binary masks. -/
def bitwiseOr (m1 m2 : List Bool) : List Bool :=
  List.zipWith or m1 m2

/-- The mask computation of `find_contours` (src/contours.py lines 66-74),
applied to the already-converted HSV image.  If `hsv_lower[0] <= hsv_upper[0]`
a single `cv.inRange` call is made; otherwise two masks are built — the first
with the upper hue replaced by 255, the second with the lower hue replaced by
0 — and merged with `cv.bitwise_or`. -/
def find_contours_mask (hsv_image : List Pixel) (hsv_lower hsv_upper : Pixel) : List Bool :=
  if hsv_lower.1 ≤ hsv_upper.1 then
    cvInRange hsv_image hsv_lower hsv_upper
  else
    let mask1 := cvInRange hsv_image hsv_lower (255, hsv_upper.2.1, hsv_upper.2.2)
    let mask2 := cvInRange hsv_image (0, hsv_lower.2.1, hsv_lower.2.2) hsv_upper
    bitwiseOr mask1 mask2

/-- The five `assert` statements guarding `find_contours`
(src/contours.py lines 39-57), in source order, each condition transcribed
exactly as written.  Note that the third assert — whose message speaks of the
*value* channel — actually tests channel index 0 (the hue) again, exactly as
the source does. -/
def find_contours_check (hsv_lower hsv_upper : IColor) : Except String Unit :=
  if 0 ≤ hsv_lower.1 ∧ hsv_lower.1 ≤ 179 ∧ 0 ≤ hsv_upper.1 ∧ hsv_upper.1 ≤ 179 then
    if 0 ≤ hsv_lower.2.1 ∧ hsv_lower.2.1 ≤ 255 ∧ 0 ≤ hsv_upper.2.1 ∧ hsv_upper.2.1 ≤ 255 then
      if 0 ≤ hsv_lower.1 ∧ hsv_lower.1 ≤ 255 ∧ 0 ≤ hsv_upper.1 ∧ hsv_upper.1 ≤ 255 then
        if hsv_lower.2.1 ≤ hsv_upper.2.1 then
          if hsv_lower.2.2 ≤ hsv_upper.2.2 then
            Except.ok ()
          else Except.error "invalid range: the value channel of hsv_lower must be less than that of hsv_upper"
        else Except.error "invalid range: the saturation channel of hsv_lower must be less than that of hsv_upper"
      else Except.error "invalid range: the value must be in the range 0 to 255 inclusive"
    else Except.error "invalid range: the saturation must be in the range 0 to 255 inclusive"
  else Except.error "invalid range: the hue must be in the range 0 to 179 inclusive"

/-- Python `max(x :: xs, key)`: start from the first element and replace the
current best only when a later element has a strictly greater key, so ties
keep the earliest element. -/
def pymax {C : Type} (key : C → Nat) : C → List C → C
  | x, [] => x
  | x, y :: ys => pymax key (if key x < key y then y else x) ys

/-- `get_largest_contour` (src/contours.py lines 106-115).  `key` stands for
the external `cv.contourArea`.  Returns `none` on an empty list, computes
`max(contours, key=cv.contourArea)`, returns `none` if its area is strictly
below `min_area`, and otherwise returns it. -/
def get_largest_contour {C : Type} (key : C → Nat) (contours : List C)
    (min_area : Nat) : Option C :=
  match contours with
  | [] => none
  | x :: xs =>
    let greatest_contour := pymax key x xs
    if key greatest_contour < min_area then none else some greatest_contour

/-- The per-channel assert loop of `draw_contour` (src/contours.py lines
146-149): channels are checked in order and the first out-of-domain channel
raises. -/
def check_color_channels : List Int → Except String Unit
  | [] => Except.ok ()
  | c :: rest =>
    if 0 ≤ c ∧ c ≤ 255 then check_color_channels rest
    else Except.error "invalid color: each channel in color must be in the range 0 to 255 inclusive"

/-- `draw_contour` (src/contours.py lines 118-151).  `cvDrawContours` stands
for the external `cv.drawContours` drawing step; the image type and contour
type are abstract.  If any colour channel fails its assert the exception is
raised before the drawing call, and the (in-place mutated) image state is
returned unchanged. -/
def draw_contour {Img Ctr : Type} (cvDrawContours : Img → Ctr → IColor → Img)
    (color_image : Img) (contour : Ctr) (color : IColor) :
    Except String Unit × Img :=
  match check_color_channels [color.1, color.2.1, color.2.2] with
  | Except.ok _ => (Except.ok (), cvDrawContours color_image contour color)
  | Except.error e => (Except.error e, color_image)

/-- The pixels collected by `ColorFinder.get_hsv_range` (src/color_finder.py
lines 40-45): scan the image in row-major order and keep exactly the pixels
whose hue lies in the closed interval given by `hue_range`. -/
def qualifying_pixels (hsv_image : HSVImage) (hue_range : Nat × Nat) : List Pixel :=
  hsv_image.flatten.filter
    (fun px => decide (hue_range.1 ≤ px.1) && decide (px.1 ≤ hue_range.2))

/-- Python `list.sort()` on naturals: ascending order.  (On a list of
naturals every correct ascending sort computes the same list, so insertion
sort is an exact model of CPython timsort here.) -/
def pysort (l : List Nat) : List Nat :=
  List.insertionSort (· ≤ ·) l

/-- `ColorFinder.get_hsv_range` (src/color_finder.py lines 38-56).  Returns
the list of printed diagnostics together with the returned range, itself a
two-element list [lower, upper].  The three channel sequences are collected
independently, the length of the hue sequence is tested against 1, each
sequence is sorted, and the bounds are assembled from index 0 and index -1 of
each sorted sequence. -/
def get_hsv_range (hsv_image : HSVImage) (hue_range : Nat × Nat) :
    List String × List Pixel :=
  let q := qualifying_pixels hsv_image hue_range
  let output_h := q.map (fun px => px.1)
  let output_s := q.map (fun px => px.2.1)
  let output_v := q.map (fun px => px.2.2)
  if output_h.length < 1 then
    (["Invalid expected hsv range. Try again"], [(0, 0, 0), (0, 0, 0)])
  else
    let sorted_h := pysort output_h
    let sorted_s := pysort output_s
    let sorted_v := pysort output_v
    ([], [(sorted_h.headD 0, sorted_s.headD 0, sorted_v.headD 0),
          (sorted_h.getLastD 0, sorted_s.getLastD 0, sorted_v.getLastD 0)])

/-- The crop-rectangle computation on mouse release in
`ColorFinder.crop_image` (src/color_finder.py lines 31-34): the drag start is
(mouse_x, mouse_y), the release point is (x, y).  The result is
((row_start, row_stop), (col_start, col_stop)), the Python slice arguments
`image[row_start:row_stop, col_start:col_stop]`.  The source compares only
the y coordinates to decide whether to swap, and swaps both axes together. -/
def crop_bounds (mouse_x mouse_y x y : Int) : (Int × Int) × (Int × Int) :=
  if y < mouse_y then ((y + 3, mouse_y - 3), (x + 3, mouse_x - 3))
  else ((mouse_y + 3, y - 3), (mouse_x + 3, x - 3))

/-- Formalisation of the SPEC's words for the crop rectangle (for comparison
with `crop_bounds`): normalise the two corners into top-left/bottom-right
order on each axis independently, then apply the fixed 3-pixel inset on each
side. -/
def crop_bounds_normalized (mouse_x mouse_y x y : Int) : (Int × Int) × (Int × Int) :=
  ((min mouse_y y + 3, max mouse_y y - 3), (min mouse_x x + 3, max mouse_x x - 3))

/-- The `ColorFinder` state relevant to the range cache: the cached HSV crop
(`self.hsv_image`, `none` before any selection), the memoised range
(`self.current_hsv_range`, the empty list when not yet computed), the
configured expected hue interval, and a count of estimator invocations
(instrumentation for the caching property). -/
structure CFState where
  hsv_image : Option HSVImage
  current_hsv_range : List Pixel
  hue_range : Nat × Nat
  estimator_calls : Nat
deriving DecidableEq

/-- The two events that touch the range cache: a completed region selection
(the mouse-release branch of `crop_image`, which stores the freshly converted
HSV crop) and one pass of the `refresh` frame loop. -/
inductive CFEvent where
  | select (newHsv : HSVImage)
  | refresh
deriving DecidableEq

/-- One event step of `ColorFinder`.  The mouse-release branch of
`crop_image` (src/color_finder.py lines 28-36) sets `self.hsv_image` and does
not touch `self.current_hsv_range`.  `refresh` (lines 62-64) invokes the
estimator exactly when `self.hsv_image` is set and
`len(self.current_hsv_range) < 1`. -/
def step (s : CFState) : CFEvent → CFState
  | CFEvent.select img => { s with hsv_image := some img }
  | CFEvent.refresh =>
    match s.hsv_image with
    | none => s
    | some img =>
      if s.current_hsv_range.length < 1 then
        { s with current_hsv_range := (get_hsv_range img s.hue_range).2,
                 estimator_calls := s.estimator_calls + 1 }
      else s

/-- Run a sequence of events from a state. -/
def run (s : CFState) (events : List CFEvent) : CFState :=
  events.foldl step s

/-- Python positional-call binding: a call with `n_args` positional arguments
to a function with `n_params` parameters, the last `n_defaults` of which have
defaults, succeeds iff `n_params - n_defaults ≤ n_args ≤ n_params`; otherwise
a TypeError is raised. -/
def python_call_ok (n_params n_defaults n_args : Nat) : Bool :=
  decide (n_params - n_defaults ≤ n_args) && decide (n_args ≤ n_params)

/-- `ColorFinder.__init__` (src/color_finder.py line 15) declares exactly two
parameters besides `self`: `path` and `hue_range`. -/
def colorfinder_init_param_count : Nat := 2

/-- Neither parameter of `ColorFinder.__init__` has a default value. -/
def colorfinder_init_default_count : Nat := 0

/-- The MANUAL=True construction in src/main.py line 13 passes three
positional arguments: `IMAGE_PATH`, `HSV_RANGE`, `True`. -/
def main_manual_arg_count : Nat := 3

/-- The MANUAL=False construction in src/main.py line 16 passes three
positional arguments: `IMAGE_PATH`, `EXPECTED_HUE_RANGE`, `False`. -/
def main_estimation_arg_count : Nat := 3

/-! ## Helper lemmas -/

theorem check_color_channels_error (l : List Int)
    (h : ¬ ∀ c ∈ l, 0 ≤ c ∧ c ≤ 255) :
    ∃ e, check_color_channels l = Except.error e := by
  induction l with
  | nil => simp at h
  | cons c rest ih =>
    by_cases hc : 0 ≤ c ∧ c ≤ 255
    · have hrest : ¬ ∀ d ∈ rest, 0 ≤ d ∧ d ≤ 255 := by
        intro hall
        apply h
        intro d hd
        rcases List.mem_cons.mp hd with rfl | hd2
        · exact hc
        · exact hall d hd2
      obtain ⟨e, he⟩ := ih hrest
      exact ⟨e, by simp [check_color_channels, hc, he]⟩
    · exact ⟨"invalid color: each channel in color must be in the range 0 to 255 inclusive",
        by simp [check_color_channels, hc]⟩

theorem step_preserves_nonempty_range (s : CFState) (e : CFEvent)
    (h : s.current_hsv_range ≠ []) :
    (step s e).current_hsv_range = s.current_hsv_range ∧
    (step s e).estimator_calls = s.estimator_calls := by
  cases e with
  | select img => exact ⟨rfl, rfl⟩
  | refresh =>
    cases hs : s.hsv_image with
    | none => simp [step, hs]
    | some img =>
      have hlen : ¬ s.current_hsv_range.length < 1 := by
        cases hr : s.current_hsv_range with
        | nil => exact absurd hr h
        | cons a t => simp
      simp [step, hs, hlen]

/-! ## Claim theorems -/

/-- Claim C4 (code bug in the source): the third assert of `find_contours`,
whose message says the value channel must be in the range 0 to 255, actually
re-tests channel index 0 (the hue), so a bound pair whose value channel is
out of [0, 255] passes all five asserts and image processing proceeds.  At
hsv_lower = (10, 10, 10), hsv_upper = (20, 20, 300) — value 300 > 255 — the
precondition check succeeds where the claim (and the assert's own message)
demands an invalid-range failure. -/
theorem C4_value_domain_unchecked :
    find_contours_check (10, 10, 10) (20, 20, 300) = Except.ok () := by rfl

/-- Claim C5: if any channel of the colour tuple is outside [0, 255],
`draw_contour` fails with an invalid-color error before the drawing
collaborator is ever applied, and the returned image state is exactly the
input image. -/
theorem C5_draw_contour_invalid_color {Img Ctr : Type}
    (cvDrawContours : Img → Ctr → IColor → Img) (color_image : Img)
    (contour : Ctr) (color : IColor)
    (h : ¬ (0 ≤ color.1 ∧ color.1 ≤ 255 ∧ 0 ≤ color.2.1 ∧ color.2.1 ≤ 255 ∧
            0 ≤ color.2.2 ∧ color.2.2 ≤ 255)) :
    ∃ e, draw_contour cvDrawContours color_image contour color =
      (Except.error e, color_image) := by
  have hch : ¬ ∀ c ∈ [color.1, color.2.1, color.2.2], 0 ≤ c ∧ c ≤ 255 := by
    intro hall
    have h1 := hall color.1 (by simp)
    have h2 := hall color.2.1 (by simp)
    have h3 := hall color.2.2 (by simp)
    exact h ⟨h1.1, h1.2, h2.1, h2.2, h3.1, h3.2⟩
  obtain ⟨e, he⟩ := check_color_channels_error _ hch
  exact ⟨e, by simp [draw_contour, he]⟩

/-- Witness for C5 at the concrete colour (0, 300, 0) with a drawing function
that would visibly change the image: the call errors and the image is
unchanged. -/
theorem C5_draw_contour_witness :
    ∃ e, draw_contour (fun img _ _ => 0 :: img) [1, 2, 3] () (0, 300, 0) =
      (Except.error e, [1, 2, 3]) :=
  C5_draw_contour_invalid_color (fun img _ _ => 0 :: img) [1, 2, 3] ()
    (0, 300, 0) (by decide)

/-- Claim C6: when no pixel qualifies, `get_hsv_range` does not raise; it
prints the diagnostic and returns the degenerate all-zero range. -/
theorem C6_no_data_degenerate_range (hsv_image : HSVImage) (hue_range : Nat × Nat)
    (h : qualifying_pixels hsv_image hue_range = []) :
    get_hsv_range hsv_image hue_range =
      (["Invalid expected hsv range. Try again"], [(0, 0, 0), (0, 0, 0)]) := by
  simp [get_hsv_range, h]

/-- Witness for C6: a one-pixel image whose hue 50 lies outside the expected
interval [100, 120]. -/
theorem C6_no_data_witness :
    get_hsv_range [[(50, 1, 2)]] (100, 120) =
      (["Invalid expected hsv range. Try again"], [(0, 0, 0), (0, 0, 0)]) :=
  C6_no_data_degenerate_range [[(50, 1, 2)]] (100, 120) (by decide)

/-- Claim C7 counterexample: for drag start (mouse_x, mouse_y) = (20, 10) and
release (x, y) = (0, 30) — end-x less than start-x with end-y greater than
start-y — the crop rectangle computed by the source is NOT the normalized
3-pixel-inset rectangle: the source compares only the y coordinates, so the
column bounds come out as (23, -3) instead of the normalized (3, 17). -/
theorem C7_crop_not_normalized :
    crop_bounds 20 10 0 30 ≠ crop_bounds_normalized 20 10 0 30 := by decide

/-- Claim C7 amended: the crop rectangle equals the normalized
top-left/bottom-right rectangle with the fixed 3-pixel inset only when the
two axes move consistently, i.e. for a strictly-upward drag the end-x does
not exceed the start-x, and otherwise the end-x is at least the start-x;
mixed-direction drags are not normalized. -/
theorem C7_crop_normalized_when_axes_agree (mouse_x mouse_y x y : Int)
    (h : (y < mouse_y ∧ x ≤ mouse_x) ∨ (mouse_y ≤ y ∧ mouse_x ≤ x)) :
    crop_bounds mouse_x mouse_y x y = crop_bounds_normalized mouse_x mouse_y x y := by
  unfold crop_bounds crop_bounds_normalized
  rcases h with ⟨h1, h2⟩ | ⟨h1, h2⟩
  · rw [if_pos h1, min_eq_right h1.le, max_eq_left h1.le, min_eq_right h2,
      max_eq_left h2]
  · rw [if_neg (not_lt.mpr h1), min_eq_left h1, max_eq_right h1, min_eq_left h2,
      max_eq_right h2]

/-- Witness for the amended C7 at the concrete down-right drag from (10, 10)
to (20, 30). -/
theorem C7_crop_witness :
    crop_bounds 10 10 20 30 = crop_bounds_normalized 10 10 20 30 :=
  C7_crop_normalized_when_axes_agree 10 10 20 30 (Or.inr (by decide))

/-- Claim C8 counterexample: starting with an empty cache, select a one-pixel
region (10, 20, 30), refresh (the estimator runs and caches its range), then
select a new one-pixel region (50, 60, 70) and refresh again.  The claim says
the new selection clears the cache so this frame recomputes the range from
the new selection; in the source `crop_image` never touches
`current_hsv_range`, so the cached range of the first selection persists and
differs from the estimate over the second selection. -/
theorem C8_new_selection_does_not_recompute :
    (run ⟨none, [], (0, 179), 0⟩
        [CFEvent.select [[(10, 20, 30)]], CFEvent.refresh,
         CFEvent.select [[(50, 60, 70)]], CFEvent.refresh]).current_hsv_range
      = (get_hsv_range [[(10, 20, 30)]] (0, 179)).2 ∧
    (run ⟨none, [], (0, 179), 0⟩
        [CFEvent.select [[(10, 20, 30)]], CFEvent.refresh,
         CFEvent.select [[(50, 60, 70)]], CFEvent.refresh]).current_hsv_range
      ≠ (get_hsv_range [[(50, 60, 70)]] (0, 179)).2 := by decide

/-- Claim C8 amended: once `current_hsv_range` is non-empty — whether cached
by an earlier frame's estimator run or supplied manually at construction —
every subsequent event sequence (frames and new region selections alike)
leaves it unchanged and never invokes the estimator again: the cache is never
cleared, not even by a new selection.  In particular a manually supplied
range means the estimator is never invoked at all. -/
theorem C8_range_cached_forever (s : CFState) (events : List CFEvent)
    (h : s.current_hsv_range ≠ []) :
    (run s events).current_hsv_range = s.current_hsv_range ∧
    (run s events).estimator_calls = s.estimator_calls := by
  induction events generalizing s with
  | nil => exact ⟨rfl, rfl⟩
  | cons e es ih =>
    obtain ⟨h1, h2⟩ := step_preserves_nonempty_range s e h
    have hne : (step s e).current_hsv_range ≠ [] := by rw [h1]; exact h
    obtain ⟨g1, g2⟩ := ih (step s e) hne
    have hrun : run s (e :: es) = run (step s e) es := rfl
    rw [hrun]
    exact ⟨g1.trans h1, g2.trans h2⟩

/-- Witness for the amended C8: a manually supplied range survives a new
selection and a refresh, and the estimator is never invoked. -/
theorem C8_range_cached_witness :
    (run ⟨none, [(1, 2, 3), (4, 5, 6)], (0, 179), 0⟩
        [CFEvent.select [[(9, 9, 9)]], CFEvent.refresh]).current_hsv_range
      = [(1, 2, 3), (4, 5, 6)] ∧
    (run ⟨none, [(1, 2, 3), (4, 5, 6)], (0, 179), 0⟩
        [CFEvent.select [[(9, 9, 9)]], CFEvent.refresh]).estimator_calls = 0 :=
  C8_range_cached_forever ⟨none, [(1, 2, 3), (4, 5, 6)], (0, 179), 0⟩
    [CFEvent.select [[(9, 9, 9)]], CFEvent.refresh] (by decide)

/-- Claim C9 (code bug in the source): `ColorFinder.__init__` declares
exactly two parameters (path, hue_range) with no defaults, but both
constructions written in src/main.py pass three positional arguments
(path, range, manual flag), so under Python call binding both raise TypeError
rather than succeeding as the claim states. -/
theorem C9_constructor_arity_mismatch :
    python_call_ok colorfinder_init_param_count colorfinder_init_default_count
      main_manual_arg_count = false ∧
    python_call_ok colorfinder_init_param_count colorfinder_init_default_count
      main_estimation_arg_count = false := by decide

/-! ## Sorting helper lemmas -/

theorem pysort_perm (l : List Nat) : (pysort l).Perm l :=
  List.perm_insertionSort (· ≤ ·) l

theorem pysort_sorted (l : List Nat) : List.Sorted (· ≤ ·) (pysort l) :=
  List.sorted_insertionSort (· ≤ ·) l

theorem sorted_headD_le {l : List Nat} (hs : List.Sorted (· ≤ ·) l) (d : Nat) :
    ∀ x ∈ l, l.headD d ≤ x := by
  cases l with
  | nil => intro x hx; simp at hx
  | cons a t =>
    intro x hx
    rw [List.headD_cons]
    rcases List.mem_cons.mp hx with rfl | hxt
    · exact le_refl x
    · exact List.rel_of_sorted_cons hs x hxt

theorem sorted_le_getLastD :
    ∀ {l : List Nat}, List.Sorted (· ≤ ·) l → ∀ d : Nat, ∀ x ∈ l, x ≤ l.getLastD d
  | [], _, d, x, hx => by simp at hx
  | a :: t, hs, d, x, hx => by
    rw [List.getLastD_cons]
    rcases List.mem_cons.mp hx with rfl | hxt
    · cases t with
      | nil => simp
      | cons b u =>
        have hxb : x ≤ b := List.rel_of_sorted_cons hs b (by simp)
        exact hxb.trans (sorted_le_getLastD hs.of_cons x b (by simp))
    · exact sorted_le_getLastD hs.of_cons a x hxt

theorem getLastD_mem : ∀ {l : List Nat}, l ≠ [] → ∀ d : Nat, l.getLastD d ∈ l
  | [], h, _ => absurd rfl h
  | a :: t, _, d => by
    rw [List.getLastD_cons]
    cases t with
    | nil => simp
    | cons b u => exact List.mem_cons_of_mem a (getLastD_mem (by simp) a)

theorem headD_mem : ∀ {l : List Nat}, l ≠ [] → ∀ d : Nat, l.headD d ∈ l
  | [], h, _ => absurd rfl h
  | a :: t, _, d => by simp

theorem pysort_ne_nil {l : List Nat} (h : l ≠ []) : pysort l ≠ [] := by
  intro h0
  have hperm := pysort_perm l
  rw [h0] at hperm
  exact h hperm.symm.eq_nil

theorem pysort_headD_le (l : List Nat) (x : Nat) (hx : x ∈ l) :
    (pysort l).headD 0 ≤ x :=
  sorted_headD_le (pysort_sorted l) 0 x ((pysort_perm l).mem_iff.mpr hx)

theorem pysort_le_getLastD (l : List Nat) (x : Nat) (hx : x ∈ l) :
    x ≤ (pysort l).getLastD 0 :=
  sorted_le_getLastD (pysort_sorted l) 0 x ((pysort_perm l).mem_iff.mpr hx)

theorem pysort_headD_mem (l : List Nat) (h : l ≠ []) : (pysort l).headD 0 ∈ l :=
  (pysort_perm l).mem_iff.mp (headD_mem (pysort_ne_nil h) 0)

theorem pysort_getLastD_mem (l : List Nat) (h : l ≠ []) : (pysort l).getLastD 0 ∈ l :=
  (pysort_perm l).mem_iff.mp (getLastD_mem (pysort_ne_nil h) 0)

/-- When at least one pixel qualifies, `get_hsv_range` prints nothing and
returns the [lower, upper] pair assembled from the heads and last elements of
the three independently sorted channel sequences. -/
theorem get_hsv_range_pos (hsv_image : HSVImage) (hue_range : Nat × Nat)
    (h : qualifying_pixels hsv_image hue_range ≠ []) :
    get_hsv_range hsv_image hue_range =
      ([], [((pysort ((qualifying_pixels hsv_image hue_range).map (fun px => px.1))).headD 0,
             (pysort ((qualifying_pixels hsv_image hue_range).map (fun px => px.2.1))).headD 0,
             (pysort ((qualifying_pixels hsv_image hue_range).map (fun px => px.2.2))).headD 0),
            ((pysort ((qualifying_pixels hsv_image hue_range).map (fun px => px.1))).getLastD 0,
             (pysort ((qualifying_pixels hsv_image hue_range).map (fun px => px.2.1))).getLastD 0,
             (pysort ((qualifying_pixels hsv_image hue_range).map (fun px => px.2.2))).getLastD 0)]) := by
  have hlen : ¬ ((qualifying_pixels hsv_image hue_range).map (fun px => px.1)).length < 1 := by
    cases hq : qualifying_pixels hsv_image hue_range with
    | nil => exact absurd hq h
    | cons a t => simp
  simp only [get_hsv_range]
  rw [if_neg hlen]

/-- Claim C2: with at least one qualifying pixel, `get_hsv_range` returns
(without any diagnostic) exactly a [lower, upper] pair that is the
axis-aligned per-channel bounding box of the qualifying pixels: each channel
of the lower bound is a lower bound on that channel over all qualifying
pixels and is attained by some qualifying pixel, and dually for the upper
bound — the six extrema being taken independently, not necessarily at a
single observed pixel. -/
theorem C2_get_hsv_range_bounding_box (hsv_image : HSVImage) (hue_range : Nat × Nat)
    (h : qualifying_pixels hsv_image hue_range ≠ []) :
    ∃ lo hi : Pixel,
      (get_hsv_range hsv_image hue_range).1 = [] ∧
      (get_hsv_range hsv_image hue_range).2 = [lo, hi] ∧
      (∀ px ∈ qualifying_pixels hsv_image hue_range,
        lo.1 ≤ px.1 ∧ px.1 ≤ hi.1 ∧ lo.2.1 ≤ px.2.1 ∧ px.2.1 ≤ hi.2.1 ∧
        lo.2.2 ≤ px.2.2 ∧ px.2.2 ≤ hi.2.2) ∧
      (∃ p1 ∈ qualifying_pixels hsv_image hue_range, p1.1 = lo.1) ∧
      (∃ p2 ∈ qualifying_pixels hsv_image hue_range, p2.2.1 = lo.2.1) ∧
      (∃ p3 ∈ qualifying_pixels hsv_image hue_range, p3.2.2 = lo.2.2) ∧
      (∃ p4 ∈ qualifying_pixels hsv_image hue_range, p4.1 = hi.1) ∧
      (∃ p5 ∈ qualifying_pixels hsv_image hue_range, p5.2.1 = hi.2.1) ∧
      (∃ p6 ∈ qualifying_pixels hsv_image hue_range, p6.2.2 = hi.2.2) := by
  have hmain := get_hsv_range_pos hsv_image hue_range h
  have hmh : (qualifying_pixels hsv_image hue_range).map (fun px => px.1) ≠ [] := by
    intro h0
    exact h (List.map_eq_nil_iff.mp h0)
  have hms : (qualifying_pixels hsv_image hue_range).map (fun px => px.2.1) ≠ [] := by
    intro h0
    exact h (List.map_eq_nil_iff.mp h0)
  have hmv : (qualifying_pixels hsv_image hue_range).map (fun px => px.2.2) ≠ [] := by
    intro h0
    exact h (List.map_eq_nil_iff.mp h0)
  refine ⟨_, _, by rw [hmain], by rw [hmain], ?_, ?_, ?_, ?_, ?_, ?_, ?_⟩
  · intro px hpx
    exact ⟨pysort_headD_le _ _ (List.mem_map_of_mem _ hpx),
           pysort_le_getLastD _ _ (List.mem_map_of_mem _ hpx),
           pysort_headD_le _ _ (List.mem_map_of_mem _ hpx),
           pysort_le_getLastD _ _ (List.mem_map_of_mem _ hpx),
           pysort_headD_le _ _ (List.mem_map_of_mem _ hpx),
           pysort_le_getLastD _ _ (List.mem_map_of_mem _ hpx)⟩
  · obtain ⟨p, hp, hpe⟩ := List.mem_map.mp (pysort_headD_mem _ hmh)
    exact ⟨p, hp, hpe⟩
  · obtain ⟨p, hp, hpe⟩ := List.mem_map.mp (pysort_headD_mem _ hms)
    exact ⟨p, hp, hpe⟩
  · obtain ⟨p, hp, hpe⟩ := List.mem_map.mp (pysort_headD_mem _ hmv)
    exact ⟨p, hp, hpe⟩
  · obtain ⟨p, hp, hpe⟩ := List.mem_map.mp (pysort_getLastD_mem _ hmh)
    exact ⟨p, hp, hpe⟩
  · obtain ⟨p, hp, hpe⟩ := List.mem_map.mp (pysort_getLastD_mem _ hms)
    exact ⟨p, hp, hpe⟩
  · obtain ⟨p, hp, hpe⟩ := List.mem_map.mp (pysort_getLastD_mem _ hmv)
    exact ⟨p, hp, hpe⟩

/-- Witness for C2: the spec's end-to-end scenario in miniature — pixels
(100, 100, 100) and (100, 200, 200) qualify for hue interval [90, 110]. -/
theorem C2_get_hsv_range_witness :
    ∃ lo hi : Pixel,
      (get_hsv_range [[(100, 100, 100), (100, 200, 200)]] (90, 110)).1 = [] ∧
      (get_hsv_range [[(100, 100, 100), (100, 200, 200)]] (90, 110)).2 = [lo, hi] ∧
      (∀ px ∈ qualifying_pixels [[(100, 100, 100), (100, 200, 200)]] (90, 110),
        lo.1 ≤ px.1 ∧ px.1 ≤ hi.1 ∧ lo.2.1 ≤ px.2.1 ∧ px.2.1 ≤ hi.2.1 ∧
        lo.2.2 ≤ px.2.2 ∧ px.2.2 ≤ hi.2.2) ∧
      (∃ p1 ∈ qualifying_pixels [[(100, 100, 100), (100, 200, 200)]] (90, 110), p1.1 = lo.1) ∧
      (∃ p2 ∈ qualifying_pixels [[(100, 100, 100), (100, 200, 200)]] (90, 110), p2.2.1 = lo.2.1) ∧
      (∃ p3 ∈ qualifying_pixels [[(100, 100, 100), (100, 200, 200)]] (90, 110), p3.2.2 = lo.2.2) ∧
      (∃ p4 ∈ qualifying_pixels [[(100, 100, 100), (100, 200, 200)]] (90, 110), p4.1 = hi.1) ∧
      (∃ p5 ∈ qualifying_pixels [[(100, 100, 100), (100, 200, 200)]] (90, 110), p5.2.1 = hi.2.1) ∧
      (∃ p6 ∈ qualifying_pixels [[(100, 100, 100), (100, 200, 200)]] (90, 110), p6.2.2 = hi.2.2) :=
  C2_get_hsv_range_bounding_box [[(100, 100, 100), (100, 200, 200)]] (90, 110) (by decide)

/-- Claim C10: with at least one qualifying pixel, the estimated range
satisfies lower ≤ upper in every channel (hue included); consequently it
always drives `find_contours` into the non-wrap single-inRange branch of the
mask computation, and it satisfies the saturation and value ordering
preconditions. -/
theorem C10_estimated_range_non_wrap (hsv_image : HSVImage) (hue_range : Nat × Nat)
    (h : qualifying_pixels hsv_image hue_range ≠ []) :
    ∃ lo hi : Pixel,
      (get_hsv_range hsv_image hue_range).2 = [lo, hi] ∧
      lo.1 ≤ hi.1 ∧ lo.2.1 ≤ hi.2.1 ∧ lo.2.2 ≤ hi.2.2 ∧
      (∀ img : List Pixel, find_contours_mask img lo hi = cvInRange img lo hi) := by
  have hmain := get_hsv_range_pos hsv_image hue_range h
  have hmh : (qualifying_pixels hsv_image hue_range).map (fun px => px.1) ≠ [] := by
    intro h0
    exact h (List.map_eq_nil_iff.mp h0)
  have hms : (qualifying_pixels hsv_image hue_range).map (fun px => px.2.1) ≠ [] := by
    intro h0
    exact h (List.map_eq_nil_iff.mp h0)
  have hmv : (qualifying_pixels hsv_image hue_range).map (fun px => px.2.2) ≠ [] := by
    intro h0
    exact h (List.map_eq_nil_iff.mp h0)
  have hhh : (pysort ((qualifying_pixels hsv_image hue_range).map (fun px => px.1))).headD 0
      ≤ (pysort ((qualifying_pixels hsv_image hue_range).map (fun px => px.1))).getLastD 0 :=
    pysort_headD_le _ _ (pysort_getLastD_mem _ hmh)
  have hss : (pysort ((qualifying_pixels hsv_image hue_range).map (fun px => px.2.1))).headD 0
      ≤ (pysort ((qualifying_pixels hsv_image hue_range).map (fun px => px.2.1))).getLastD 0 :=
    pysort_headD_le _ _ (pysort_getLastD_mem _ hms)
  have hvv : (pysort ((qualifying_pixels hsv_image hue_range).map (fun px => px.2.2))).headD 0
      ≤ (pysort ((qualifying_pixels hsv_image hue_range).map (fun px => px.2.2))).getLastD 0 :=
    pysort_headD_le _ _ (pysort_getLastD_mem _ hmv)
  refine ⟨_, _, by rw [hmain], hhh, hss, hvv, ?_⟩
  intro img
  unfold find_contours_mask
  rw [if_pos hhh]

/-- Witness for C10 at the same concrete two-pixel image: the estimated
range takes the non-wrap branch. -/
theorem C10_estimated_range_witness :
    ∃ lo hi : Pixel,
      (get_hsv_range [[(100, 100, 100), (100, 200, 200)]] (90, 110)).2 = [lo, hi] ∧
      lo.1 ≤ hi.1 ∧ lo.2.1 ≤ hi.2.1 ∧ lo.2.2 ≤ hi.2.2 ∧
      (∀ img : List Pixel, find_contours_mask img lo hi = cvInRange img lo hi) :=
  C10_estimated_range_non_wrap [[(100, 100, 100), (100, 200, 200)]] (90, 110) (by decide)

/-! ## pymax helper lemmas -/

theorem pymax_key_le {C : Type} (key : C → Nat) :
    ∀ (x : C) (xs : List C), key x ≤ key (pymax key x xs)
  | x, [] => le_refl _
  | x, y :: ys => by
    by_cases hxy : key x < key y
    · have h1 : key y ≤ key (pymax key y ys) := pymax_key_le key y ys
      simp only [pymax, if_pos hxy]
      exact le_of_lt (lt_of_lt_of_le hxy h1)
    · simp only [pymax, if_neg hxy]
      exact pymax_key_le key x ys

theorem pymax_firstmax {C : Type} (key : C → Nat) (xs : List C) :
    ∀ x : C, ∃ l1 l2,
      x :: xs = l1 ++ pymax key x xs :: l2 ∧
      (∀ c ∈ l1, key c < key (pymax key x xs)) ∧
      (∀ c ∈ l2, key c ≤ key (pymax key x xs)) := by
  induction xs with
  | nil => intro x; exact ⟨[], [], rfl, by simp, by simp⟩
  | cons y ys ih =>
    intro x
    by_cases hxy : key x < key y
    · have hmax : pymax key x (y :: ys) = pymax key y ys := by
        simp only [pymax, if_pos hxy]
      obtain ⟨l1, l2, heq, hlt, hle⟩ := ih y
      rw [hmax]
      refine ⟨x :: l1, l2, ?_, ?_, hle⟩
      · rw [List.cons_append, ← heq]
      · intro c hc
        rcases List.mem_cons.mp hc with rfl | hc2
        · exact lt_of_lt_of_le hxy (pymax_key_le key y ys)
        · exact hlt c hc2
    · have hmax : pymax key x (y :: ys) = pymax key x ys := by
        simp only [pymax, if_neg hxy]
      have hyx : key y ≤ key x := Nat.not_lt.mp hxy
      obtain ⟨l1, l2, heq, hlt, hle⟩ := ih x
      rw [hmax]
      cases l1 with
      | nil =>
        simp only [List.nil_append, List.cons.injEq] at heq
        refine ⟨[], y :: ys, ?_, by simp, ?_⟩
        · rw [List.nil_append, ← heq.1]
        · intro c hc
          rw [← heq.1]
          rcases List.mem_cons.mp hc with rfl | hc2
          · exact hyx
          · have hcl : key c ≤ key (pymax key x ys) := hle c (heq.2 ▸ hc2)
            rw [← heq.1] at hcl
            exact hcl
      | cons a l1t =>
        simp only [List.cons_append, List.cons.injEq] at heq
        refine ⟨x :: y :: l1t, l2, ?_, ?_, hle⟩
        · simp only [List.cons_append, List.cons.injEq, true_and]
          rw [← heq.2]
        · intro c hc
          have hx2 : key a < key (pymax key x ys) := hlt a (by simp)
          rw [← heq.1] at hx2
          rcases List.mem_cons.mp hc with rfl | hc2
          · exact hx2
          rcases List.mem_cons.mp hc2 with rfl | hc3
          · exact lt_of_le_of_lt hyx hx2
          · exact hlt c (by simp [hc3])

theorem pymax_is_max {C : Type} (key : C → Nat) (x : C) (xs : List C) :
    ∀ c ∈ x :: xs, key c ≤ key (pymax key x xs) := by
  obtain ⟨l1, l2, heq, hlt, hle⟩ := pymax_firstmax key xs x
  intro c hc
  rw [heq] at hc
  rcases List.mem_append.mp hc with h1 | h2
  · exact le_of_lt (hlt c h1)
  rcases List.mem_cons.mp h2 with rfl | h3
  · exact le_refl _
  · exact hle c h3

/-- Claim C3: `get_largest_contour` returns none on an empty list; returns
none when every contour area is strictly below min_area (equivalently the
maximum area is); and otherwise returns exactly a contour of maximum area,
namely the first maximal element in list order: the list splits as
l1 ++ g :: l2 with every element of l1 of strictly smaller area and every
element of the whole list of area at most that of g. -/
theorem C3_get_largest_contour {C : Type} (key : C → Nat) (contours : List C)
    (min_area : Nat) :
    (contours = [] → get_largest_contour key contours min_area = none) ∧
    ((∀ c ∈ contours, key c < min_area) →
      get_largest_contour key contours min_area = none) ∧
    ((∃ c ∈ contours, min_area ≤ key c) →
      ∃ l1 g l2, get_largest_contour key contours min_area = some g ∧
        contours = l1 ++ g :: l2 ∧
        (∀ c ∈ contours, key c ≤ key g) ∧
        (∀ c ∈ l1, key c < key g)) := by
  refine ⟨?_, ?_, ?_⟩
  · rintro rfl; rfl
  · intro hall
    cases contours with
    | nil => rfl
    | cons x xs =>
      have hmem : pymax key x xs ∈ x :: xs := by
        obtain ⟨l1, l2, heq, _, _⟩ := pymax_firstmax key xs x
        rw [heq]
        exact List.mem_append.mpr (Or.inr (List.mem_cons_self _ _))
      have hlt2 : key (pymax key x xs) < min_area := hall _ hmem
      simp [get_largest_contour, hlt2]
  · rintro ⟨c, hc, hca⟩
    cases contours with
    | nil => simp at hc
    | cons x xs =>
      have hmax := pymax_is_max key x xs c hc
      have hge : ¬ key (pymax key x xs) < min_area := Nat.not_lt.mpr (le_trans hca hmax)
      obtain ⟨l1, l2, heq, hlt, hle⟩ := pymax_firstmax key xs x
      refine ⟨l1, pymax key x xs, l2, ?_, heq, pymax_is_max key x xs, hlt⟩
      simp [get_largest_contour, hge]

/-- Witness for C3 on the concrete area list [5, 9, 9, 2] with min_area 6:
the first of the two tied maxima is returned. -/
theorem C3_witness :
    ∃ l1 g l2, get_largest_contour (fun a : Nat => a) [5, 9, 9, 2] 6 = some g ∧
      [5, 9, 9, 2] = l1 ++ g :: l2 ∧
      (∀ c ∈ [5, 9, 9, 2], c ≤ g) ∧
      (∀ c ∈ l1, c < g) :=
  (C3_get_largest_contour (fun a => a) [5, 9, 9, 2] 6).2.2 ⟨9, by decide, by decide⟩

/-! ## Mask helper lemmas and claim C1 -/

theorem zipWith_or_map {α : Type} (f g : α → Bool) (l : List α) :
    List.zipWith or (l.map f) (l.map g) = l.map (fun a => f a || g a) := by
  induction l with
  | nil => rfl
  | cons a t ih => simp only [List.map_cons, List.zipWith_cons_cons, ih]

theorem wrap_pixel_or (hsv_lower hsv_upper px : Pixel) (hpx : px.1 ≤ 179) :
    (inRangePx hsv_lower (255, hsv_upper.2.1, hsv_upper.2.2) px ||
     inRangePx (0, hsv_lower.2.1, hsv_lower.2.2) hsv_upper px)
    = ((decide (hsv_lower.1 ≤ px.1) || decide (px.1 ≤ hsv_upper.1)) &&
       (decide (hsv_lower.2.1 ≤ px.2.1) && decide (px.2.1 ≤ hsv_upper.2.1) &&
        decide (hsv_lower.2.2 ≤ px.2.2) && decide (px.2.2 ≤ hsv_upper.2.2))) := by
  rw [Bool.eq_iff_iff]
  simp only [inRangePx, Bool.and_eq_true, Bool.or_eq_true, decide_eq_true_eq]
  omega

theorem inRangePx_hue255_eq_179 (lo : Pixel) (s v : Nat) (px : Pixel) (hpx : px.1 ≤ 179) :
    inRangePx lo (255, s, v) px = inRangePx lo (179, s, v) px := by
  rw [Bool.eq_iff_iff]
  simp only [inRangePx, Bool.and_eq_true, decide_eq_true_eq]
  omega

theorem find_contours_mask_wrap (hsv_image : List Pixel) (hsv_lower hsv_upper : Pixel)
    (hwrap : hsv_upper.1 < hsv_lower.1) :
    find_contours_mask hsv_image hsv_lower hsv_upper
      = hsv_image.map (fun px =>
          inRangePx hsv_lower (255, hsv_upper.2.1, hsv_upper.2.2) px ||
          inRangePx (0, hsv_lower.2.1, hsv_lower.2.2) hsv_upper px) := by
  unfold find_contours_mask
  rw [if_neg (Nat.not_le.mpr hwrap)]
  unfold cvInRange bitwiseOr
  rw [zipWith_or_map]

theorem find_contours_mask_nowrap (hsv_image : List Pixel) (hsv_lower hsv_upper : Pixel)
    (h : hsv_lower.1 ≤ hsv_upper.1) :
    find_contours_mask hsv_image hsv_lower hsv_upper = cvInRange hsv_image hsv_lower hsv_upper := by
  unfold find_contours_mask
  rw [if_pos h]

/-- Claim C1: for bounds passing the preconditions of `find_contours` with
lower hue strictly greater than upper hue, and an HSV image whose hues come
from the BGR-to-HSV conversion (so lie in [0, 179]), the mask includes a
pixel iff (its hue is at least the lower hue OR at most the upper hue) AND
its saturation and value lie within the bounds; equivalently the wrap-case
mask is the pixelwise OR (union) of the two non-wrap masks obtained by
splitting the hue band at the hue boundary — hue in [lower hue, 179] and hue
in [0, upper hue], both with the same saturation/value bounds. -/
theorem C1_wrap_mask (hsv_image : List Pixel) (hsv_lower hsv_upper : Pixel)
    (hl : hsv_lower.1 ≤ 179) (hu : hsv_upper.1 ≤ 179)
    (hs : hsv_lower.2.1 ≤ hsv_upper.2.1) (hv : hsv_lower.2.2 ≤ hsv_upper.2.2)
    (hwrap : hsv_upper.1 < hsv_lower.1)
    (hpx : ∀ px ∈ hsv_image, px.1 ≤ 179) :
    find_contours_mask hsv_image hsv_lower hsv_upper
      = hsv_image.map (fun px =>
          (decide (hsv_lower.1 ≤ px.1) || decide (px.1 ≤ hsv_upper.1)) &&
          (decide (hsv_lower.2.1 ≤ px.2.1) && decide (px.2.1 ≤ hsv_upper.2.1) &&
           decide (hsv_lower.2.2 ≤ px.2.2) && decide (px.2.2 ≤ hsv_upper.2.2))) ∧
    find_contours_mask hsv_image hsv_lower hsv_upper
      = bitwiseOr
          (find_contours_mask hsv_image hsv_lower (179, hsv_upper.2.1, hsv_upper.2.2))
          (find_contours_mask hsv_image (0, hsv_lower.2.1, hsv_lower.2.2) hsv_upper) := by
  constructor
  · rw [find_contours_mask_wrap hsv_image hsv_lower hsv_upper hwrap]
    exact List.map_congr_left
      (fun px hmem => wrap_pixel_or hsv_lower hsv_upper px (hpx px hmem))
  · rw [find_contours_mask_wrap hsv_image hsv_lower hsv_upper hwrap,
      find_contours_mask_nowrap hsv_image hsv_lower (179, hsv_upper.2.1, hsv_upper.2.2) hl,
      find_contours_mask_nowrap hsv_image (0, hsv_lower.2.1, hsv_lower.2.2) hsv_upper
        (Nat.zero_le _)]
    unfold cvInRange bitwiseOr
    rw [zipWith_or_map]
    exact List.map_congr_left
      (fun px hmem => by
        rw [inRangePx_hue255_eq_179 hsv_lower hsv_upper.2.1 hsv_upper.2.2 px (hpx px hmem)])

/-- Witness for C1, the spec's wrap scenario: bounds (170, 50, 50) and
(10, 255, 255) over pixels of hue 175, 5 and 90 — the first two are masked
in, the third is not, and the union decomposition holds. -/
theorem C1_wrap_mask_witness :
    find_contours_mask [(175, 100, 100), (5, 100, 100), (90, 100, 100)]
        (170, 50, 50) (10, 255, 255)
      = [true, true, false] ∧
    find_contours_mask [(175, 100, 100), (5, 100, 100), (90, 100, 100)]
        (170, 50, 50) (10, 255, 255)
      = bitwiseOr
          (find_contours_mask [(175, 100, 100), (5, 100, 100), (90, 100, 100)]
            (170, 50, 50) (179, 255, 255))
          (find_contours_mask [(175, 100, 100), (5, 100, 100), (90, 100, 100)]
            (0, 50, 50) (10, 255, 255)) := by
  have h := C1_wrap_mask [(175, 100, 100), (5, 100, 100), (90, 100, 100)]
    (170, 50, 50) (10, 255, 255)
    (by decide) (by decide) (by decide) (by decide) (by decide) (by decide)
  exact ⟨h.1.trans (by decide), h.2⟩
